import Mathlib

/-!
Verification development for the `lzhbrowser` package (file
`src/lzhbrowser/__init__.py`): a Playwright wrapper whose core is the
`Browser.fetch` orchestration loop (semaphore gating, whitelist-based route
selection, retry state machine), plus the whitelist store and `close()`.

The Python code is shallowly embedded below.  External collaborators
(the Playwright engine, the network) are abstracted by explicit oracles:
each fetch attempt's outcome (success / timeout / other error, and whether
`context.new_page()` itself raises) is an input, and the embedded control
flow is translated line by line from the source.
-/

/-! ## Glob matching (`fnmatch.fnmatch`)

`Browser._is_whitelisted` matches via `fnmatch.fnmatch(name, pattern)`.
On POSIX, `os.path.normcase` is the identity, so the semantics is that of
`fnmatch.translate`: `*` matches any (possibly empty) substring, `?`
matches any single character, and `[...]` is a character class (leading
`!` negates, a `]` right after `[` or `[!` is a member, `a-b` is a range,
an unterminated `[` is a literal).  Matching is anchored at both ends
(the translated regex ends in `\Z`).  The parser and matcher below use a
structural fuel argument (always instantiated large enough: every step
consumes at least one pattern token or one input character), so that they
compute by kernel reduction. -/

/-- A member of a `[...]` character class: a single character or a range. -/
inductive ClsItem where
  | single (c : Char)
  | range (lo hi : Char)
deriving DecidableEq, Repr

/-- One token of a compiled glob pattern (mirrors `fnmatch.translate`). -/
inductive GlobTok where
  | star
  | anyChar
  | lit (c : Char)
  | cls (negated : Bool) (items : List ClsItem)
deriving DecidableEq, Repr

/-- Scan for the closing `]` of a character class; returns the content
before it and the remainder after it, or `none` when unterminated
(in which case `fnmatch` treats the `[` as a literal). -/
def scanClose : List Char → Option (List Char × List Char)
  | [] => none
  | ']' :: rest => some ([], rest)
  | c :: rest =>
      match scanClose rest with
      | none => none
      | some (content, r) => some (c :: content, r)

/-- Parse the raw content of a character class into items.  A `-` between
two characters forms a range; a leading or trailing `-` is a literal,
exactly as in `fnmatch.translate`'s chunking. -/
def parseItems : List Char → List ClsItem
  | [] => []
  | a :: '-' :: b :: rest => ClsItem.range a b :: parseItems rest
  | c :: rest => ClsItem.single c :: parseItems rest

/-- Parse a character class body (the part after `[`): an optional leading
`!` negates, and a `]` appearing first (after the optional `!`) is a
literal member.  Returns `none` when there is no closing `]`. -/
def parseBracket (ps : List Char) : Option (Bool × List ClsItem × List Char) :=
  match ps with
  | '!' :: ']' :: rest =>
      (scanClose rest).map (fun p => (true, parseItems (']' :: p.1), p.2))
  | '!' :: rest =>
      (scanClose rest).map (fun p => (true, parseItems p.1, p.2))
  | ']' :: rest =>
      (scanClose rest).map (fun p => (false, parseItems (']' :: p.1), p.2))
  | rest =>
      (scanClose rest).map (fun p => (false, parseItems p.1, p.2))

/-- Compile a glob pattern into tokens (fuelled; each step consumes at
least one character, so `fuel = length` suffices). -/
def parseGlobAux : Nat → List Char → List GlobTok
  | 0, _ => []
  | _ + 1, [] => []
  | fuel + 1, '*' :: ps => GlobTok.star :: parseGlobAux fuel ps
  | fuel + 1, '?' :: ps => GlobTok.anyChar :: parseGlobAux fuel ps
  | fuel + 1, '[' :: ps =>
      match parseBracket ps with
      | none => GlobTok.lit '[' :: parseGlobAux fuel ps
      | some (neg, items, rest) => GlobTok.cls neg items :: parseGlobAux fuel rest
  | fuel + 1, c :: ps => GlobTok.lit c :: parseGlobAux fuel ps

/-- Compile a glob pattern into tokens. -/
def parseGlob (pat : List Char) : List GlobTok := parseGlobAux pat.length pat

/-- Is character `c` a member of the class? -/
def inCls (items : List ClsItem) (c : Char) : Bool :=
  items.any fun it =>
    match it with
    | ClsItem.single d => c == d
    | ClsItem.range lo hi => lo ≤ c && c ≤ hi

/-- Anchored glob matching of a token list against a character list
(fuelled; every recursive call shrinks `tokens.length + s.length`, so
`fuel = tokens.length + s.length + 1` suffices). -/
def globMatchAux : Nat → List GlobTok → List Char → Bool
  | 0, _, _ => false
  | _ + 1, [], s => s.isEmpty
  | fuel + 1, GlobTok.star :: ts, s =>
      globMatchAux fuel ts s ||
        (match s with
         | [] => false
         | _ :: s2 => globMatchAux fuel (GlobTok.star :: ts) s2)
  | fuel + 1, GlobTok.anyChar :: ts, s =>
      match s with
      | [] => false
      | _ :: s2 => globMatchAux fuel ts s2
  | fuel + 1, GlobTok.lit c :: ts, s =>
      match s with
      | [] => false
      | c2 :: s2 => c == c2 && globMatchAux fuel ts s2
  | fuel + 1, GlobTok.cls neg items :: ts, s =>
      match s with
      | [] => false
      | c2 :: s2 => (neg != inCls items c2) && globMatchAux fuel ts s2

/-- `fnmatch.fnmatch(name, pat)` on POSIX. -/
def fnmatch (name pat : String) : Bool :=
  let ts := parseGlob pat.toList
  let s := name.toList
  globMatchAux (ts.length + s.length + 1) ts s

/-! ## URL parsing (`urllib.parse.urlparse`, the `netloc`/`path` fields)

`_is_whitelisted` uses `urlparse(url).netloc` and `urlparse(url).path`.
The embedding below follows CPython's `urlsplit`: drop the fragment,
split a syntactically valid scheme at the first `:`, take the netloc
after a leading `//` up to the next `/`, `?` or `#`, drop the query, and
split `;params` off the last path segment (`urlparse._splitparams`). -/

/-- Characters allowed in a URL scheme after the initial letter. -/
def isSchemeChar (c : Char) : Bool :=
  c.isAlpha || c.isDigit || c == '+' || c == '-' || c == '.'

/-- Remove a leading `scheme:` when the text before the first `:` is a
valid scheme (nonempty, starts with a letter, scheme characters only);
otherwise return the input unchanged. -/
def splitScheme (cs : List Char) : List Char :=
  let before := cs.takeWhile (fun c => c != ':')
  match cs.drop before.length, before with
  | ':' :: rest, c0 :: pre =>
      if c0.isAlpha && (c0 :: pre).all isSchemeChar then rest else cs
  | _, _ => cs

/-- Split the netloc off a `//`-prefixed remainder: the netloc runs to the
next `/`, `?` or `#`.  Without the `//` prefix the netloc is empty. -/
def splitNetloc (cs : List Char) : List Char × List Char :=
  match cs with
  | '/' :: '/' :: rest =>
      let netloc := rest.takeWhile (fun c => c != '/' && c != '?' && c != '#')
      (netloc, rest.drop netloc.length)
  | _ => ([], cs)

/-- `urlparse._splitparams`: drop `;params` from the last path segment
(searching for `;` only after the last `/` when the path has one). -/
def splitParams (path : List Char) : List Char :=
  if path.contains '/' then
    let seg := (path.reverse.takeWhile (fun c => c != '/')).reverse
    let stem := path.take (path.length - seg.length)
    stem ++ seg.takeWhile (fun c => c != ';')
  else
    path.takeWhile (fun c => c != ';')

/-- The `netloc` and `path` fields of `urllib.parse.urlparse(url)`. -/
def urlparse_netloc_path (url : String) : String × String :=
  let cs := url.toList.takeWhile (fun c => c != '#')
  let cs2 := splitScheme cs
  let np := splitNetloc cs2
  let beforeQuery := np.2.takeWhile (fun c => c != '?')
  (String.mk np.1, String.mk (splitParams beforeQuery))

/-! ## Whitelist (`Browser._is_whitelisted` and `Browser.white_list_update`)

The Python whitelist is a `set[str]`, modelled as a `Finset String`. -/

/-- `Browser._is_whitelisted(url)` (underscore dropped from the name):
`hostname = urlparse(url).netloc`, `path = urlparse(url).path`,
`target = hostname + path`, and the result is
`any(fnmatch(hostname, p) or fnmatch(target, p) for p in white_list)`. -/
def is_whitelisted (wl : Finset String) (url : String) : Bool :=
  let hostname := (urlparse_netloc_path url).1
  let path := (urlparse_netloc_path url).2
  let target := hostname ++ path
  decide (∃ pat ∈ wl, fnmatch hostname pat = true ∨ fnmatch target pat = true)

/-- `Browser.white_list_update`: `self._white_list.update(whitel_list)`,
i.e. in-place set union; modelled as the union of the store's contents
with the new patterns. -/
def white_list_update (wl newPatterns : Finset String) : Finset String :=
  wl ∪ newPatterns

/-! ## The fetch loop (`Browser.fetch`)

`fetch` resolves its defaults, enters `async with self._pages_semaphore`,
picks `context_proxy` or `context_direct` by the whitelist, and runs
`for attempt in range(1, retries + 2)`.  Each iteration calls
`context.new_page()` **outside** the `try` block, then inside the `try`
navigates, optionally waits for a selector, and extracts the content;
`PlaywrightTimeoutError` and any other `Exception` are the two handlers.

The engine is abstracted by an oracle `specs : Nat → AttemptSpec` giving,
for each attempt number, whether `new_page()` raises and otherwise how the
`try` body ends (success with content / timeout error / other error).
The navigation timeout, `wait_until`, `selector` and `abort` arguments
only influence which outcome the engine produces, so they live inside the
oracle.  Besides the result, the embedding records the call's visible
event trace (semaphore, route selection, page opens, deferred-close
scheduling, backoff sleeps). -/

/-- How the `try` body of one attempt ends. -/
inductive TryOutcome where
  | success (content : String)
  | timeout
  | otherError
deriving DecidableEq, Repr

/-- Oracle for one attempt: does `context.new_page()` raise, and if not,
how does the `try` body end. -/
structure AttemptSpec where
  newPageRaises : Bool
  outcome : TryOutcome
deriving DecidableEq, Repr

/-- Result of a fetch call: the content, `None` (absent), or an exception
propagated to the caller. -/
inductive FetchResult where
  | content (s : String)
  | absent
  | raised
deriving DecidableEq, Repr

/-- Events a fetch call performs, in order. -/
inductive Ev where
  | acquire
  | selectEnv (proxied : Bool)
  | newPage (attempt : Nat) (proxied : Bool)
  | newPageRaised (attempt : Nat) (proxied : Bool)
  | scheduleClose (attempt : Nat)
  | sleep1
  | release
deriving DecidableEq, Repr

/-- `x = default if not x else x` (lines 105-106 of the source, applied to
both `retries` and `timeout`): `None` **and** `0` are falsy, so both are
replaced by the default. -/
def resolveDefault (arg : Option Nat) (dflt : Nat) : Nat :=
  match arg with
  | none => dflt
  | some v => if v = 0 then dflt else v

/-- The body of `for attempt in range(1, retries + 2)`, driven by the list
of remaining attempt numbers.  Per iteration: `new_page()` (outside the
`try`: if it raises, the exception propagates out of the loop); on
success schedule the deferred close and return the content; on
`PlaywrightTimeoutError` schedule the deferred close and return `None`
if `attempt > retries`, else continue immediately; on any other exception
schedule the deferred close, return `None` if `attempt > retries`, else
`await asyncio.sleep(1)` and continue.  Falling off the loop end returns
Python's implicit `None`. -/
def fetchGo (specs : Nat → AttemptSpec) (proxied : Bool) (retries : Nat) :
    List Nat → FetchResult × List Ev
  | [] => (FetchResult.absent, [])
  | a :: rest =>
      if (specs a).newPageRaises then
        (FetchResult.raised, [Ev.newPageRaised a proxied])
      else
        match (specs a).outcome with
        | TryOutcome.success c =>
            (FetchResult.content c, [Ev.newPage a proxied, Ev.scheduleClose a])
        | TryOutcome.timeout =>
            if retries < a then
              (FetchResult.absent, [Ev.newPage a proxied, Ev.scheduleClose a])
            else
              let r := fetchGo specs proxied retries rest
              (r.1, Ev.newPage a proxied :: Ev.scheduleClose a :: r.2)
        | TryOutcome.otherError =>
            if retries < a then
              (FetchResult.absent, [Ev.newPage a proxied, Ev.scheduleClose a])
            else
              let r := fetchGo specs proxied retries rest
              (r.1, Ev.newPage a proxied :: Ev.scheduleClose a :: Ev.sleep1 :: r.2)

/-- `Browser.fetch`: resolve the effective retry count (the timeout is
resolved by the same `resolveDefault` and handed to the engine), acquire
the pages semaphore, select the context by the whitelist once, run the
attempt loop over `range(1, retries + 2)`, and release the semaphore on
every exit path (`async with`), including a propagating exception. -/
def fetch (wl : Finset String) (maxRetryDefault : Nat) (url : String)
    (retriesArg : Option Nat) (specs : Nat → AttemptSpec) : FetchResult × List Ev :=
  let retries := resolveDefault retriesArg maxRetryDefault
  let proxied := is_whitelisted wl url
  let r := fetchGo specs proxied retries (List.range' 1 (retries + 1))
  (r.1, Ev.acquire :: Ev.selectEnv proxied :: (r.2 ++ [Ev.release]))

/-- Attempts performed by a fetch call: one `new_page()` call starts each
loop iteration. -/
def attemptCount (t : List Ev) : Nat :=
  t.countP fun e =>
    match e with
    | Ev.newPage _ _ => true
    | Ev.newPageRaised _ _ => true
    | _ => false

/-- Route-selection events. -/
def isSelectEv (e : Ev) : Bool :=
  match e with
  | Ev.selectEnv _ => true
  | _ => false

/-! ## `Browser.close`

`close()` is three statements, each guarded only by the truthiness of the
field (`if self.context_direct: await self.context_direct.close()` and
likewise for `context_proxy` and `playwright_instance.stop()`); nothing
catches exceptions and no field is ever set back to `None`.  The state
records which fields are non-`None`; the oracle records which underlying
close calls raise.  The model returns the close calls performed, in
order, and whether the Python call raised. -/

/-- Which of the three lifecycle fields are currently non-`None`. -/
structure CtxState where
  contextDirect : Bool
  contextProxy : Bool
  playwrightInstance : Bool
deriving DecidableEq, Repr

/-- Oracle: which underlying close/stop calls raise. -/
structure CloseBehavior where
  directRaises : Bool
  proxyRaises : Bool
  stopRaises : Bool
deriving DecidableEq, Repr

/-- The three teardown calls `close()` can perform. -/
inductive CloseEv where
  | closeDirect
  | closeProxy
  | stopEngine
deriving DecidableEq, Repr

/-- `Browser.close`: the calls performed in order and whether the call
raised.  A raising close propagates immediately (no handler), so later
teardown steps are skipped.  `close()` never mutates the fields, so a
repeated invocation sees the same `CtxState`. -/
def close (st : CtxState) (b : CloseBehavior) : List CloseEv × Bool :=
  let s1 : List CloseEv × Bool :=
    if st.contextDirect then ([CloseEv.closeDirect], b.directRaises) else ([], false)
  if s1.2 then s1
  else
    let s2 : List CloseEv × Bool :=
      if st.contextProxy then (s1.1 ++ [CloseEv.closeProxy], b.proxyRaises) else (s1.1, false)
    if s2.2 then s2
    else
      if st.playwrightInstance then (s2.1 ++ [CloseEv.stopEngine], b.stopRaises)
      else (s2.1, false)

/-! ## Instance-level whitelist state (`Browser.__init__`)

`__init__` has `white_list: set[str] = set()` as a parameter default.  In
Python that default set object is created **once**, when the `def`
statement executes, and `self._white_list = white_list` stores a
reference; so every `Browser()` constructed without an explicit
`white_list` aliases the same set object, and an explicit argument
aliases the caller's set.  Set objects are modelled as slots in a heap
indexed by `Nat`; slot `0` is the module-level default object. -/

/-- Heap of `set[str]` objects. -/
def SetHeap : Type := Nat → Finset String

/-- The initial heap: every set object empty (in particular the default
argument object, which `__init__` never copies). -/
def initHeap : SetHeap := fun _ => ∅

/-- A `Browser` instance, reduced to the identity of the set object its
`_white_list` attribute references. -/
structure PyBrowser where
  whiteListRef : Nat
deriving DecidableEq, Repr

/-- The slot of the single default-argument set object, created when the
`def __init__` statement ran. -/
def defaultWhiteListRef : Nat := 0

/-- `Browser(white_list=...)`: with no explicit argument the instance
aliases the shared default object; with an explicit argument it aliases
the caller's set. -/
def mkBrowser (explicitRef : Option Nat) : PyBrowser :=
  ⟨explicitRef.getD defaultWhiteListRef⟩

/-- `browser.white_list_update(ps)`: in-place union on the referenced set
object. -/
def browserWhiteListUpdate (b : PyBrowser) (ps : Finset String) (h : SetHeap) : SetHeap :=
  fun i => if i = b.whiteListRef then white_list_update (h i) ps else h i

/-- `browser._is_whitelisted(url)` reading through the instance's
reference. -/
def browserIsWhitelisted (b : PyBrowser) (h : SetHeap) (url : String) : Bool :=
  is_whitelisted (h b.whiteListRef) url

example : fnmatch "a.example.com" "*.example.com" = true := by decide
example : fnmatch "example.com" "*.example.com" = false := by decide
example : fnmatch "example.com/path123" "example.com/path*" = true := by decide
example : urlparse_netloc_path "https://a.example.com/x?q=1" = ("a.example.com", "/x") := by decide
example : is_whitelisted {"*.example.com"} "https://a.example.com/" = true := by decide
example : is_whitelisted {"*.example.com"} "https://example.com/" = false := by decide


/-! ## The concurrency gate (`asyncio.Semaphore(max_pages)`)

To state the bound on simultaneously in-flight fetch calls, the calls'
event traces are interleaved by a small-step scheduler.  The semaphore
state is the number of free slots: an `acquire` step is enabled only when
a slot is free (`asyncio.Semaphore.acquire` suspends otherwise) and takes
one; a `release` step returns one; every other event leaves the
semaphore alone.  A call is *holding* between its `acquire` and its
`release`. -/

/-- One fetch call in the scheduler: the events it still has to perform
and whether it currently holds a semaphore slot. -/
structure CallSt where
  remaining : List Ev
  holding : Bool
deriving DecidableEq, Repr

/-- Scheduler state: free semaphore slots plus the calls. -/
structure Sys where
  avail : Nat
  calls : List CallSt
deriving DecidableEq, Repr

/-- One scheduler step: some call performs its next event, with
`asyncio.Semaphore` semantics for `acquire` and `release`. -/
inductive SysStep : Sys → Sys → Prop where
  | acq (avail : Nat) (pre post : List CallSt) (hold : Bool) (rest : List Ev)
      (hava : 0 < avail) :
      SysStep ⟨avail, pre ++ ⟨Ev.acquire :: rest, hold⟩ :: post⟩
        ⟨avail - 1, pre ++ ⟨rest, true⟩ :: post⟩
  | rel (avail : Nat) (pre post : List CallSt) (hold : Bool) (rest : List Ev) :
      SysStep ⟨avail, pre ++ ⟨Ev.release :: rest, hold⟩ :: post⟩
        ⟨avail + 1, pre ++ ⟨rest, false⟩ :: post⟩
  | other (avail : Nat) (pre post : List CallSt) (hold : Bool) (e : Ev) (rest : List Ev)
      (hne : e ≠ Ev.acquire) (hnr : e ≠ Ev.release) :
      SysStep ⟨avail, pre ++ ⟨e :: rest, hold⟩ :: post⟩
        ⟨avail, pre ++ ⟨rest, hold⟩ :: post⟩

/-- Number of calls currently holding a slot. -/
def holdCount (l : List CallSt) : Nat := l.countP fun c => c.holding

/-- A trace segment free of semaphore events. -/
def NoSem (t : List Ev) : Prop := ∀ e ∈ t, e ≠ Ev.acquire ∧ e ≠ Ev.release

/-- Remaining trace of a call holding a slot: semaphore-free work, then
the final `release`. -/
def HoldingTail (t : List Ev) : Prop :=
  ∃ m, t = m ++ [Ev.release] ∧ NoSem m

/-- Remaining trace of a call not holding a slot: either finished, or the
whole call — `acquire` first, then semaphore-free work, then `release`. -/
def IdleTail (t : List Ev) : Prop :=
  t = [] ∨ ∃ m, t = Ev.acquire :: (m ++ [Ev.release]) ∧ NoSem m

/-- Per-call well-formedness in the scheduler. -/
def WfCall (c : CallSt) : Prop :=
  if c.holding then HoldingTail c.remaining else IdleTail c.remaining

/-- The gate invariant: free slots plus holders equal the capacity, and
every call is well-formed. -/
def GateInv (k : Nat) (s : Sys) : Prop :=
  s.avail + holdCount s.calls = k ∧ ∀ c ∈ s.calls, WfCall c

theorem holdingTail_cons_acquire {rest : List Ev}
    (h : HoldingTail (Ev.acquire :: rest)) : False := by
  obtain ⟨m, hm, hns⟩ := h
  cases m with
  | nil => simp at hm
  | cons x xs =>
      rw [List.cons_append] at hm
      have hx : x = Ev.acquire := (List.cons.injEq _ _ _ _ ▸ hm).1.symm
      exact (hns x (by simp)).1 hx

theorem idleTail_cons_acquire {rest : List Ev}
    (h : IdleTail (Ev.acquire :: rest)) : HoldingTail rest := by
  rcases h with h | ⟨m, hm, hns⟩
  · simp at h
  · exact ⟨m, by simpa using hm, hns⟩

theorem idleTail_cons_release {rest : List Ev}
    (h : IdleTail (Ev.release :: rest)) : False := by
  rcases h with h | ⟨m, hm, hns⟩
  · simp at h
  · simp [List.cons.injEq] at hm

theorem holdingTail_cons_release {rest : List Ev}
    (h : HoldingTail (Ev.release :: rest)) : rest = [] := by
  obtain ⟨m, hm, hns⟩ := h
  cases m with
  | nil => simpa using hm.symm
  | cons x xs =>
      rw [List.cons_append] at hm
      have hx : x = Ev.release := (List.cons.injEq _ _ _ _ ▸ hm).1.symm
      exact absurd hx (hns x (by simp)).2

theorem holdingTail_cons_other {e : Ev} {rest : List Ev}
    (_hne : e ≠ Ev.acquire) (hnr : e ≠ Ev.release)
    (h : HoldingTail (e :: rest)) : HoldingTail rest := by
  obtain ⟨m, hm, hns⟩ := h
  cases m with
  | nil =>
      exact absurd ((List.cons.injEq _ _ _ _ ▸ hm).1) hnr
  | cons x xs =>
      rw [List.cons_append] at hm
      obtain ⟨hx, hxs⟩ := List.cons.injEq _ _ _ _ ▸ hm
      exact ⟨xs, hxs, fun y hy => hns y (by simp [hy])⟩

theorem idleTail_cons_other {e : Ev} {rest : List Ev}
    (hne : e ≠ Ev.acquire) (h : IdleTail (e :: rest)) : False := by
  rcases h with h | ⟨m, hm, hns⟩
  · simp at h
  · exact hne (List.cons.injEq _ _ _ _ ▸ hm).1

/-- The gate invariant is preserved by every scheduler step. -/
theorem gateInv_step {k : Nat} {s s2 : Sys} (hinv : GateInv k s) (hst : SysStep s s2) :
    GateInv k s2 := by
  obtain ⟨hcnt, hwf⟩ := hinv
  cases hst with
  | acq avail pre post hold rest hava =>
      have hwfc : WfCall ⟨Ev.acquire :: rest, hold⟩ := hwf _ (by simp)
      have hhold : hold = false := by
        cases hold with
        | true => exact absurd (by simpa [WfCall] using hwfc) holdingTail_cons_acquire
        | false => rfl
      subst hhold
      have hrest : HoldingTail rest := idleTail_cons_acquire (by simpa [WfCall] using hwfc)
      constructor
      · simp [holdCount, List.countP_append, List.countP_cons] at hcnt ⊢
        omega
      · intro c hc
        rcases List.mem_append.mp hc with hc | hc
        · exact hwf c (List.mem_append.mpr (Or.inl hc))
        · rcases List.mem_cons.mp hc with hc | hc
          · subst hc; simpa [WfCall] using hrest
          · exact hwf c (by simp [hc])
  | rel avail pre post hold rest =>
      have hwfc : WfCall ⟨Ev.release :: rest, hold⟩ := hwf _ (by simp)
      have hhold : hold = true := by
        cases hold with
        | true => rfl
        | false => exact absurd (by simpa [WfCall] using hwfc) idleTail_cons_release
      subst hhold
      have hrest : rest = [] := holdingTail_cons_release (by simpa [WfCall] using hwfc)
      subst hrest
      constructor
      · simp [holdCount, List.countP_append, List.countP_cons] at hcnt ⊢
        omega
      · intro c hc
        rcases List.mem_append.mp hc with hc | hc
        · exact hwf c (List.mem_append.mpr (Or.inl hc))
        · rcases List.mem_cons.mp hc with hc | hc
          · subst hc; simp [WfCall, IdleTail]
          · exact hwf c (by simp [hc])
  | other avail pre post hold e rest hne hnr =>
      have hwfc : WfCall ⟨e :: rest, hold⟩ := hwf _ (by simp)
      have hwfnew : WfCall ⟨rest, hold⟩ := by
        cases hold with
        | true =>
            simpa [WfCall] using
              holdingTail_cons_other hne hnr (by simpa [WfCall] using hwfc)
        | false =>
            exact absurd (by simpa [WfCall] using hwfc) (idleTail_cons_other hne)
      constructor
      · simpa only [holdCount, List.countP_append, List.countP_cons] using hcnt
      · intro c hc
        rcases List.mem_append.mp hc with hc | hc
        · exact hwf c (List.mem_append.mpr (Or.inl hc))
        · rcases List.mem_cons.mp hc with hc | hc
          · subst hc; exact hwfnew
          · exact hwf c (by simp [hc])

/-- The gate invariant holds in every reachable state. -/
theorem gateInv_reach {k : Nat} {s0 s : Sys} (h0 : GateInv k s0)
    (h : Relation.ReflTransGen SysStep s0 s) : GateInv k s := by
  induction h with
  | refl => exact h0
  | tail _ hstep ih => exact gateInv_step ih hstep

/-- Every event the attempt loop emits is a page open, a deferred-close
scheduling, or a backoff sleep — never a semaphore or route event; and
every page open carries the environment chosen before the loop. -/
theorem fetchGo_events (specs : Nat → AttemptSpec) (proxied : Bool) (retries : Nat) :
    ∀ l : List Nat, ∀ e ∈ (fetchGo specs proxied retries l).2,
      (∃ a, e = Ev.newPage a proxied) ∨ (∃ a, e = Ev.newPageRaised a proxied) ∨
        (∃ a, e = Ev.scheduleClose a) ∨ e = Ev.sleep1 := by
  intro l
  induction l with
  | nil => intro e he; simp [fetchGo] at he
  | cons a rest ih =>
      intro e he
      by_cases hr : (specs a).newPageRaises
      · simp [fetchGo, hr] at he
        subst he
        exact Or.inr (Or.inl ⟨a, rfl⟩)
      · rcases ho : (specs a).outcome with c | _ | _
        · simp [fetchGo, hr, ho] at he
          rcases he with rfl | rfl
          · exact Or.inl ⟨a, rfl⟩
          · exact Or.inr (Or.inr (Or.inl ⟨a, rfl⟩))
        · by_cases hla : retries < a
          · simp [fetchGo, hr, ho, hla] at he
            rcases he with rfl | rfl
            · exact Or.inl ⟨a, rfl⟩
            · exact Or.inr (Or.inr (Or.inl ⟨a, rfl⟩))
          · simp [fetchGo, hr, ho, hla] at he
            rcases he with rfl | rfl | he
            · exact Or.inl ⟨a, rfl⟩
            · exact Or.inr (Or.inr (Or.inl ⟨a, rfl⟩))
            · exact ih e he
        · by_cases hla : retries < a
          · simp [fetchGo, hr, ho, hla] at he
            rcases he with rfl | rfl
            · exact Or.inl ⟨a, rfl⟩
            · exact Or.inr (Or.inr (Or.inl ⟨a, rfl⟩))
          · simp [fetchGo, hr, ho, hla] at he
            rcases he with rfl | rfl | rfl | he
            · exact Or.inl ⟨a, rfl⟩
            · exact Or.inr (Or.inr (Or.inl ⟨a, rfl⟩))
            · exact Or.inr (Or.inr (Or.inr rfl))
            · exact ih e he

/-- The trace of one fetch call, unfolded. -/
theorem fetch_trace_eq (wl : Finset String) (d : Nat) (url : String)
    (retriesArg : Option Nat) (specs : Nat → AttemptSpec) :
    (fetch wl d url retriesArg specs).2 =
      Ev.acquire :: Ev.selectEnv (is_whitelisted wl url) ::
        ((fetchGo specs (is_whitelisted wl url) (resolveDefault retriesArg d)
            (List.range' 1 (resolveDefault retriesArg d + 1))).2 ++ [Ev.release]) := rfl

/-- Shape of every fetch trace: one `acquire` first, one `release` last,
nothing semaphore-related in between — on every exit path. -/
theorem fetch_trace_shape (wl : Finset String) (d : Nat) (url : String)
    (retriesArg : Option Nat) (specs : Nat → AttemptSpec) :
    ∃ mid, (fetch wl d url retriesArg specs).2 = Ev.acquire :: (mid ++ [Ev.release]) ∧
      NoSem mid := by
  refine ⟨Ev.selectEnv (is_whitelisted wl url) ::
    (fetchGo specs (is_whitelisted wl url) (resolveDefault retriesArg d)
      (List.range' 1 (resolveDefault retriesArg d + 1))).2, ?_, ?_⟩
  · rw [fetch_trace_eq]
    simp
  · intro e he
    rcases List.mem_cons.mp he with rfl | he
    · simp
    · rcases fetchGo_events specs (is_whitelisted wl url) (resolveDefault retriesArg d)
          (List.range' 1 (resolveDefault retriesArg d + 1)) e he with
        ⟨a, rfl⟩ | ⟨a, rfl⟩ | ⟨a, rfl⟩ | rfl <;> simp

/-- Arguments of one fetch call, with its engine oracle. -/
structure FetchParams where
  wl : Finset String
  maxRetryDefault : Nat
  url : String
  retriesArg : Option Nat
  specs : Nat → AttemptSpec

/-- The event trace of a fetch call with the given arguments. -/
def fetchCallTrace (p : FetchParams) : List Ev :=
  (fetch p.wl p.maxRetryDefault p.url p.retriesArg p.specs).2

/-- A fetch call entering the scheduler: its full trace ahead of it, no
slot held. -/
def initCall (p : FetchParams) : CallSt := ⟨fetchCallTrace p, false⟩

/-- The gate invariant holds initially: `k` free slots, no holders, every
call well-formed (by the fetch trace shape). -/
theorem gateInv_init (k : Nat) (ps : List FetchParams) :
    GateInv k ⟨k, ps.map initCall⟩ := by
  constructor
  · have hz : holdCount (ps.map initCall) = 0 := by
      simp only [holdCount]
      apply List.countP_eq_zero.mpr
      intro c hc
      obtain ⟨p, _, rfl⟩ := List.mem_map.mp hc
      simp [initCall]
    simp [hz]
  · intro c hc
    obtain ⟨p, _, rfl⟩ := List.mem_map.mp hc
    obtain ⟨mid, hm, hns⟩ := fetch_trace_shape p.wl p.maxRetryDefault p.url p.retriesArg p.specs
    have hm2 : fetchCallTrace p = Ev.acquire :: (mid ++ [Ev.release]) := hm
    simp only [WfCall, initCall]
    simp only [Bool.false_eq_true, if_false]
    exact Or.inr ⟨mid, hm2, hns⟩

/-! ## Concrete oracles used by witnesses and counterexamples -/

/-- Every attempt: `new_page()` succeeds, navigation times out. -/
def specsAllTimeoutW : Nat → AttemptSpec := fun _ => ⟨false, TryOutcome.timeout⟩

/-- Attempt 1 times out, every later attempt succeeds. -/
def specsTimeoutThenSuccess : Nat → AttemptSpec := fun n =>
  if n = 1 then ⟨false, TryOutcome.timeout⟩ else ⟨false, TryOutcome.success "html"⟩

/-- Every attempt: `context.new_page()` itself raises. -/
def specsOpenRaise : Nat → AttemptSpec := fun _ => ⟨true, TryOutcome.timeout⟩

/-! ## Claims -/

/-- C1: every fetch call acquires exactly one `ConcurrencyGate` slot
before its first attempt and releases it exactly once at the very end,
on every exit path (its trace is one `acquire`, then semaphore-free work
containing all its page opens, then one final `release`; the acquire and
release counts are exactly 1 regardless of the attempt outcomes,
including a propagating page-open failure).  Consequently, in any
scheduler interleaving of any number of concurrent fetch calls through
an `asyncio.Semaphore(k)`, at most `k` calls hold a slot at any instant,
and any call about to open a page is one of the holders — so at most
`k` calls are inside their page-holding retry sequence simultaneously. -/
theorem fetch_concurrency_gate :
    (∀ p : FetchParams,
        (∃ mid, fetchCallTrace p = Ev.acquire :: (mid ++ [Ev.release]) ∧ NoSem mid) ∧
        (fetchCallTrace p).countP (fun e => e == Ev.acquire) = 1 ∧
        (fetchCallTrace p).countP (fun e => e == Ev.release) = 1) ∧
    (∀ (k : Nat) (ps : List FetchParams) (s : Sys),
        Relation.ReflTransGen SysStep ⟨k, ps.map initCall⟩ s →
        holdCount s.calls ≤ k ∧
        ∀ c ∈ s.calls, (∃ a q t, c.remaining = Ev.newPage a q :: t) → c.holding = true) := by
  constructor
  · intro p
    obtain ⟨mid, hm, hns⟩ := fetch_trace_shape p.wl p.maxRetryDefault p.url p.retriesArg p.specs
    have hm2 : fetchCallTrace p = Ev.acquire :: (mid ++ [Ev.release]) := hm
    have hza : mid.countP (fun e => e == Ev.acquire) = 0 := by
      apply List.countP_eq_zero.mpr
      intro e he
      simpa using (hns e he).1
    have hzr : mid.countP (fun e => e == Ev.release) = 0 := by
      apply List.countP_eq_zero.mpr
      intro e he
      simpa using (hns e he).2
    have e1 : (Ev.acquire == Ev.acquire) = true := rfl
    have e2 : (Ev.release == Ev.acquire) = false := rfl
    have e3 : (Ev.release == Ev.release) = true := rfl
    have e4 : (Ev.acquire == Ev.release) = false := rfl
    refine ⟨⟨mid, hm2, hns⟩, ?_, ?_⟩ <;>
      rw [hm2] <;>
      simp [List.countP_cons, List.countP_append, hza, hzr, e1, e2, e3, e4]
  · intro k ps s hreach
    obtain ⟨hcnt, hwf⟩ := gateInv_reach (gateInv_init k ps) hreach
    refine ⟨by omega, ?_⟩
    rintro c hc ⟨a, q, t, hct⟩
    cases hh : c.holding with
    | true => rfl
    | false =>
        have hwfc := hwf c hc
        rw [WfCall, hh] at hwfc
        simp only [Bool.false_eq_true, if_false] at hwfc
        rcases hwfc with h | ⟨m, hm3, _⟩
        · rw [hct] at h
          simp at h
        · rw [hct] at hm3
          simp at hm3

def pW : FetchParams := ⟨∅, 2, "https://example.com/", none, specsAllTimeoutW⟩

theorem fetch_concurrency_gate_witness :
    holdCount (Sys.calls ⟨0, [⟨[Ev.newPage 1 false, Ev.scheduleClose 1, Ev.newPage 2 false,
        Ev.scheduleClose 2, Ev.newPage 3 false, Ev.scheduleClose 3, Ev.release], true⟩]⟩) ≤ 1 ∧
      ∀ c ∈ Sys.calls ⟨0, [⟨[Ev.newPage 1 false, Ev.scheduleClose 1, Ev.newPage 2 false,
          Ev.scheduleClose 2, Ev.newPage 3 false, Ev.scheduleClose 3, Ev.release], true⟩]⟩,
        (∃ a q t, c.remaining = Ev.newPage a q :: t) → c.holding = true := by
  have hmap : [pW].map initCall =
      [⟨Ev.acquire :: [Ev.selectEnv false, Ev.newPage 1 false, Ev.scheduleClose 1,
        Ev.newPage 2 false, Ev.scheduleClose 2, Ev.newPage 3 false, Ev.scheduleClose 3,
        Ev.release], false⟩] := by decide
  have h1 : SysStep ⟨1, [pW].map initCall⟩
      ⟨0, [⟨[Ev.selectEnv false, Ev.newPage 1 false, Ev.scheduleClose 1, Ev.newPage 2 false,
        Ev.scheduleClose 2, Ev.newPage 3 false, Ev.scheduleClose 3, Ev.release], true⟩]⟩ := by
    rw [hmap]
    exact SysStep.acq 1 [] [] false _ (by decide)
  have h2 : SysStep
      ⟨0, [⟨[Ev.selectEnv false, Ev.newPage 1 false, Ev.scheduleClose 1, Ev.newPage 2 false,
        Ev.scheduleClose 2, Ev.newPage 3 false, Ev.scheduleClose 3, Ev.release], true⟩]⟩
      ⟨0, [⟨[Ev.newPage 1 false, Ev.scheduleClose 1, Ev.newPage 2 false, Ev.scheduleClose 2,
        Ev.newPage 3 false, Ev.scheduleClose 3, Ev.release], true⟩]⟩ :=
    SysStep.other 0 [] [] true (Ev.selectEnv false) _ (by decide) (by decide)
  exact fetch_concurrency_gate.2 1 [pW] _
    (Relation.ReflTransGen.tail (Relation.ReflTransGen.tail Relation.ReflTransGen.refl h1) h2)

/-- C2: with `retries = 2`, if every attempt's navigation/selector wait
times out then exactly 3 attempts (page opens) are performed and the call
returns `None`; if attempt 1 times out and attempt 2 succeeds then
exactly 2 attempts are performed and the successful content is
returned. -/
theorem fetch_retry_attempt_counts (wl : Finset String) (d : Nat) (url : String)
    (specsA specsB : Nat → AttemptSpec) (c : String)
    (hA : ∀ n, specsA n = ⟨false, TryOutcome.timeout⟩)
    (hB1 : specsB 1 = ⟨false, TryOutcome.timeout⟩)
    (hB2 : specsB 2 = ⟨false, TryOutcome.success c⟩) :
    ((fetch wl d url (some 2) specsA).1 = FetchResult.absent ∧
      attemptCount (fetch wl d url (some 2) specsA).2 = 3) ∧
    ((fetch wl d url (some 2) specsB).1 = FetchResult.content c ∧
      attemptCount (fetch wl d url (some 2) specsB).2 = 2) := by
  have hr : List.range' 1 3 = [1, 2, 3] := rfl
  constructor
  · constructor <;>
      simp [fetch, resolveDefault, hr, fetchGo, hA 1, hA 2, hA 3, attemptCount,
        List.countP_cons, List.countP_append]
  · constructor <;>
      simp [fetch, resolveDefault, hr, fetchGo, hB1, hB2, attemptCount,
        List.countP_cons, List.countP_append]

theorem fetch_retry_attempt_counts_witness :
    ((fetch ∅ 5 "https://example.com/" (some 2) specsAllTimeoutW).1 = FetchResult.absent ∧
      attemptCount (fetch ∅ 5 "https://example.com/" (some 2) specsAllTimeoutW).2 = 3) ∧
    ((fetch ∅ 5 "https://example.com/" (some 2) specsTimeoutThenSuccess).1 =
        FetchResult.content "html" ∧
      attemptCount (fetch ∅ 5 "https://example.com/" (some 2) specsTimeoutThenSuccess).2 = 2) :=
  fetch_retry_attempt_counts ∅ 5 "https://example.com/" specsAllTimeoutW
    specsTimeoutThenSuccess "html" (fun _ => rfl) rfl rfl

/-- C3: `_is_whitelisted` parses the URL into hostname (netloc) and path
and returns true iff some stored pattern glob-matches the hostname alone
or glob-matches the concatenation of hostname and path; in particular
`*.example.com` matches `a.example.com` but not bare `example.com`, and
`example.com/path*` matches `example.com/path123`. -/
theorem whitelist_match_iff :
    (∀ (wl : Finset String) (url : String),
        is_whitelisted wl url = true ↔
          ∃ pat ∈ wl,
            fnmatch (urlparse_netloc_path url).1 pat = true ∨
              fnmatch ((urlparse_netloc_path url).1 ++ (urlparse_netloc_path url).2) pat =
                true) ∧
    fnmatch "a.example.com" "*.example.com" = true ∧
    fnmatch "example.com" "*.example.com" = false ∧
    fnmatch "example.com/path123" "example.com/path*" = true ∧
    is_whitelisted {"*.example.com"} "https://a.example.com/" = true ∧
    is_whitelisted {"*.example.com"} "https://example.com/" = false := by
  refine ⟨?_, by decide, by decide, by decide, by decide, by decide⟩
  intro wl url
  simp [is_whitelisted]

theorem whitelist_match_iff_witness :
    is_whitelisted {"*.example.com"} "https://a.example.com/x" = true :=
  (whitelist_match_iff.1 {"*.example.com"} "https://a.example.com/x").mpr
    ⟨"*.example.com", by decide, Or.inl (by decide)⟩

/-- C4: every fetch call selects its environment exactly once, before the
first attempt (the trace starts `acquire`, then one `selectEnv` carrying
`is_whitelisted wl url` — proxied iff the whitelist matches), and every
page open of the whole retry sequence carries that same environment;
the attempt loop never re-reads the whitelist (there is exactly one
route-selection event in the trace). -/
theorem fetch_env_selected_once (wl : Finset String) (d : Nat) (url : String)
    (retriesArg : Option Nat) (specs : Nat → AttemptSpec) :
    (∃ rest, (fetch wl d url retriesArg specs).2 =
        Ev.acquire :: Ev.selectEnv (is_whitelisted wl url) :: rest) ∧
    (fetch wl d url retriesArg specs).2.countP isSelectEv = 1 ∧
    (∀ a q, Ev.newPage a q ∈ (fetch wl d url retriesArg specs).2 →
        q = is_whitelisted wl url) ∧
    (∀ a q, Ev.newPageRaised a q ∈ (fetch wl d url retriesArg specs).2 →
        q = is_whitelisted wl url) := by
  have hz : (fetchGo specs (is_whitelisted wl url) (resolveDefault retriesArg d)
      (List.range' 1 (resolveDefault retriesArg d + 1))).2.countP isSelectEv = 0 := by
    apply List.countP_eq_zero.mpr
    intro e he
    rcases fetchGo_events specs (is_whitelisted wl url) (resolveDefault retriesArg d)
        (List.range' 1 (resolveDefault retriesArg d + 1)) e he with
      ⟨a, rfl⟩ | ⟨a, rfl⟩ | ⟨a, rfl⟩ | rfl <;> simp [isSelectEv]
  refine ⟨⟨_, fetch_trace_eq wl d url retriesArg specs⟩, ?_, ?_, ?_⟩
  · rw [fetch_trace_eq]
    simp [List.countP_cons, List.countP_append, isSelectEv, hz]
  · intro a q hmem
    rw [fetch_trace_eq] at hmem
    simp only [List.mem_cons, List.mem_append, List.mem_singleton] at hmem
    rcases hmem with h | h | h | h
    · exact absurd h (by simp)
    · exact absurd h (by simp)
    · rcases fetchGo_events specs (is_whitelisted wl url) (resolveDefault retriesArg d)
          (List.range' 1 (resolveDefault retriesArg d + 1)) _ h with
        ⟨a2, he⟩ | ⟨a2, he⟩ | ⟨a2, he⟩ | he <;> simp_all
    · exact absurd h (by simp)
  · intro a q hmem
    rw [fetch_trace_eq] at hmem
    simp only [List.mem_cons, List.mem_append, List.mem_singleton] at hmem
    rcases hmem with h | h | h | h
    · exact absurd h (by simp)
    · exact absurd h (by simp)
    · rcases fetchGo_events specs (is_whitelisted wl url) (resolveDefault retriesArg d)
          (List.range' 1 (resolveDefault retriesArg d + 1)) _ h with
        ⟨a2, he⟩ | ⟨a2, he⟩ | ⟨a2, he⟩ | he <;> simp_all
    · exact absurd h (by simp)

theorem fetch_env_selected_once_witness :
    Ev.newPage 1 false ∈ (fetch ∅ 2 "https://example.com/" none specsAllTimeoutW).2 ∧
      false = is_whitelisted ∅ "https://example.com/" :=
  ⟨by decide,
    ((fetch_env_selected_once ∅ 2 "https://example.com/" none specsAllTimeoutW).2.2.1 1 false
      (by decide)).symm ▸ rfl⟩

/-- C5 counterexample: the claim says every failure during *page open* is
caught and handled by the retry policy, but `page = await
context.new_page()` sits outside the `try` block, so a page-open failure
propagates to the caller instead of being retried or converted to
`None`. -/
theorem fetch_raises_on_page_open_failure :
    (fetch ∅ 2 "https://example.com/" none specsOpenRaise).1 = FetchResult.raised := by
  decide

/-- C5 amended: provided every `context.new_page()` call succeeds, fetch
never raises: failures during navigation, selector wait, or content
extraction are all caught by the two handlers, and after the final
allowed attempt the call returns `None` (or the content) rather than
raising. -/
theorem fetch_no_raise_when_pages_open (wl : Finset String) (d : Nat) (url : String)
    (retriesArg : Option Nat) (specs : Nat → AttemptSpec)
    (hnr : ∀ n, (specs n).newPageRaises = false) :
    (fetch wl d url retriesArg specs).1 ≠ FetchResult.raised := by
  have hgo : ∀ l : List Nat,
      (fetchGo specs (is_whitelisted wl url) (resolveDefault retriesArg d) l).1 ≠
        FetchResult.raised := by
    intro l
    induction l with
    | nil => simp [fetchGo]
    | cons a rest ih =>
        rcases ho : (specs a).outcome with c | _ | _ <;>
          by_cases hla : resolveDefault retriesArg d < a <;>
          simp [fetchGo, hnr a, ho, hla, ih]
  exact hgo (List.range' 1 (resolveDefault retriesArg d + 1))

theorem fetch_no_raise_when_pages_open_witness :
    (fetch ∅ 2 "https://example.com/" none specsAllTimeoutW).1 ≠ FetchResult.raised :=
  fetch_no_raise_when_pages_open ∅ 2 "https://example.com/" none specsAllTimeoutW
    (fun _ => rfl)

/-- C6 counterexample: with all three fields set, if closing the direct
context raises, `close()` raises (nothing catches the exception) and
neither the proxied context nor the engine is closed — the teardown
steps are guarded against absence only, not against failure. -/
theorem close_failure_not_guarded :
    (close ⟨true, true, true⟩ ⟨true, false, false⟩).2 = true ∧
    CloseEv.closeProxy ∉ (close ⟨true, true, true⟩ ⟨true, false, false⟩).1 ∧
    CloseEv.stopEngine ∉ (close ⟨true, true, true⟩ ⟨true, false, false⟩).1 := by
  decide

/-- C6 amended: each teardown step is guarded against *absence* of its
component (a `None` field is skipped and does not block the others), and
when no underlying close raises, `close()` does not raise and closes
exactly the present components; since `close()` never mutates the
fields, repeated invocation behaves identically — so it may be called
multiple times, also from a partially initialized state, without
raising, provided the underlying closes do not raise.  A raising
underlying close, however, propagates and skips the remaining steps. -/
theorem close_guarded_against_absence (st : CtxState) (b : CloseBehavior)
    (hb : b = ⟨false, false, false⟩) :
    (close st b).2 = false ∧
    (CloseEv.closeDirect ∈ (close st b).1 ↔ st.contextDirect = true) ∧
    (CloseEv.closeProxy ∈ (close st b).1 ↔ st.contextProxy = true) ∧
    (CloseEv.stopEngine ∈ (close st b).1 ↔ st.playwrightInstance = true) := by
  subst hb
  rcases st with ⟨d, p, e⟩
  cases d <;> cases p <;> cases e <;> decide

theorem close_guarded_against_absence_witness :
    (close ⟨true, false, true⟩ ⟨false, false, false⟩).2 = false ∧
    (CloseEv.closeDirect ∈ (close ⟨true, false, true⟩ ⟨false, false, false⟩).1 ↔
      CtxState.contextDirect ⟨true, false, true⟩ = true) ∧
    (CloseEv.closeProxy ∈ (close ⟨true, false, true⟩ ⟨false, false, false⟩).1 ↔
      CtxState.contextProxy ⟨true, false, true⟩ = true) ∧
    (CloseEv.stopEngine ∈ (close ⟨true, false, true⟩ ⟨false, false, false⟩).1 ↔
      CtxState.playwrightInstance ⟨true, false, true⟩ = true) :=
  close_guarded_against_absence ⟨true, false, true⟩ ⟨false, false, false⟩ rfl

/-- C7 counterexample: `retries = self._max_retry_default if not retries
else retries` treats `0` as falsy, so an explicitly passed `retries = 0`
is replaced by the default (2): the call performs 3 attempts, not the 1
attempt the claim's reading requires.  The `timeout` resolution on the
next line has the same falsy test. -/
theorem explicit_zero_replaced_by_default :
    resolveDefault (some 0) 2 = 2 ∧
    attemptCount (fetch ∅ 2 "https://example.com/" (some 0) specsAllTimeoutW).2 = 3 := by
  decide

/-- C7 amended: an explicitly passed *nonzero* (truthy) retry count or
timeout is used as given, and the Session default is used when the
argument is omitted (`None`) — but an explicit `0` is also falsy and is
replaced by the default. -/
theorem resolve_default_truthy (v d : Nat) (hv : v ≠ 0) :
    resolveDefault (some v) d = v ∧ resolveDefault none d = d ∧
      resolveDefault (some 0) d = d := by
  simp [resolveDefault, hv]

theorem resolve_default_truthy_witness :
    resolveDefault (some 7) 2 = 7 ∧ resolveDefault none 2 = 2 ∧
      resolveDefault (some 0) 2 = 2 :=
  resolve_default_truthy 7 2 (by decide)

/-- C8: the retry loop's two failure branches stay distinct.  On a
non-final attempt (`attempt ≤ retries`) a navigation/selector timeout
proceeds to the next attempt immediately — it contributes only the page
open and the deferred-close scheduling, no sleep — while any other
failure additionally sleeps a fixed 1 second before the next attempt.
On a final attempt (`retries < attempt`) both branches return `None`,
and both branches schedule the same deferred page close. -/
theorem fetch_retry_branch_policies (specs : Nat → AttemptSpec) (proxied : Bool)
    (retries a : Nat) (rest : List Nat) :
    ((specs a).newPageRaises = false → (specs a).outcome = TryOutcome.timeout →
      a ≤ retries →
      fetchGo specs proxied retries (a :: rest) =
        ((fetchGo specs proxied retries rest).1,
          Ev.newPage a proxied :: Ev.scheduleClose a ::
            (fetchGo specs proxied retries rest).2)) ∧
    ((specs a).newPageRaises = false → (specs a).outcome = TryOutcome.otherError →
      a ≤ retries →
      fetchGo specs proxied retries (a :: rest) =
        ((fetchGo specs proxied retries rest).1,
          Ev.newPage a proxied :: Ev.scheduleClose a :: Ev.sleep1 ::
            (fetchGo specs proxied retries rest).2)) ∧
    ((specs a).newPageRaises = false → (specs a).outcome = TryOutcome.timeout →
      retries < a →
      fetchGo specs proxied retries (a :: rest) =
        (FetchResult.absent, [Ev.newPage a proxied, Ev.scheduleClose a])) ∧
    ((specs a).newPageRaises = false → (specs a).outcome = TryOutcome.otherError →
      retries < a →
      fetchGo specs proxied retries (a :: rest) =
        (FetchResult.absent, [Ev.newPage a proxied, Ev.scheduleClose a])) := by
  refine ⟨?_, ?_, ?_, ?_⟩ <;> intro h1 h2 h3 <;>
    simp [fetchGo, h1, h2, h3]

theorem fetch_retry_branch_policies_witness :
    fetchGo specsAllTimeoutW false 2 [1, 2, 3] =
      ((fetchGo specsAllTimeoutW false 2 [2, 3]).1,
        Ev.newPage 1 false :: Ev.scheduleClose 1 ::
          (fetchGo specsAllTimeoutW false 2 [2, 3]).2) :=
  (fetch_retry_branch_policies specsAllTimeoutW false 2 1 [2, 3]).1 rfl rfl (by decide)

/-- Matching is monotone in the pattern store. -/
theorem is_whitelisted_mono {s t : Finset String} (hsub : s ⊆ t) (url : String)
    (h : is_whitelisted s url = true) : is_whitelisted t url = true := by
  simp only [is_whitelisted, decide_eq_true_eq] at h ⊢
  obtain ⟨p, hp, hm⟩ := h
  exact ⟨p, hsub hp, hm⟩

/-- The store only grows across any sequence of updates. -/
theorem subset_foldl_white_list_update (s : Finset String)
    (updates : List (Finset String)) :
    s ⊆ updates.foldl white_list_update s := by
  induction updates generalizing s with
  | nil => simp
  | cons u us ih =>
      simp only [List.foldl_cons]
      intro x hx
      exact ih (white_list_update s u) (Finset.mem_union_left u hx)

/-- C9: `white_list_update` is additive and idempotent: the store becomes
the union of its previous contents and the new patterns; re-adding
already-present patterns changes nothing; the store only grows (there is
no removal), and the set of matched URLs only grows across any sequence
of updates. -/
theorem white_list_update_additive_idempotent (s p : Finset String) (url : String) :
    white_list_update s p = s ∪ p ∧
    white_list_update (white_list_update s p) p = white_list_update s p ∧
    s ⊆ white_list_update s p ∧
    (is_whitelisted s url = true → is_whitelisted (white_list_update s p) url = true) ∧
    ∀ updates : List (Finset String),
      s ⊆ updates.foldl white_list_update s ∧
      (is_whitelisted s url = true →
        is_whitelisted (updates.foldl white_list_update s) url = true) := by
  refine ⟨rfl, ?_, ?_, ?_, ?_⟩
  · simp [white_list_update, Finset.union_assoc]
  · exact Finset.subset_union_left
  · exact is_whitelisted_mono Finset.subset_union_left url
  · intro updates
    exact ⟨subset_foldl_white_list_update s updates,
      is_whitelisted_mono (subset_foldl_white_list_update s updates) url⟩

theorem white_list_update_additive_idempotent_witness :
    is_whitelisted (white_list_update {"*.example.com"} {"other.com"})
      "https://a.example.com/" = true :=
  (white_list_update_additive_idempotent {"*.example.com"} {"other.com"}
    "https://a.example.com/").2.2.2.1 (by decide)

def browserA : PyBrowser := mkBrowser none
def browserB : PyBrowser := mkBrowser none

/-- C10: the claim says two Browser instances constructed without an
explicit `white_list` have independent stores.  They do not: the mutable
default argument `white_list: set[str] = set()` is a single object
created when `def __init__` ran, and `self._white_list = white_list`
aliases it, so both instances reference the same set.  Updating the
whitelist through the first instance changes the second instance's
matching (here from false to true for `https://a.example.com/`). -/
theorem default_white_list_shared :
    browserA.whiteListRef = browserB.whiteListRef ∧
    browserIsWhitelisted browserB initHeap "https://a.example.com/" = false ∧
    browserIsWhitelisted browserB
        (browserWhiteListUpdate browserA {"*.example.com"} initHeap)
        "https://a.example.com/" = true := by
  decide
